import Mathlib

/-!
Verification of the VibeWalk backend (src/backend/main.py): the hybrid
geo-semantic scoring engine.  Floating-point arithmetic of the source is
embedded as exact rational arithmetic; every fallible operation (a hybrid
index query, the Python stride computation that can raise ZeroDivisionError)
is embedded via Except.
-/

namespace VibeWalk

/-- A geographic coordinate, the pydantic Point model (lat, lng). -/
structure Point where
  lat : ℚ
  lng : ℚ
deriving DecidableEq

/-- One retrieval hit as returned by qdrant query_points: the similarity
score and the payload fields the scorer reads.  The text payload defaults
to the empty string in the source (payload.get with default), so it is a
plain String here; the name payload may be absent, so it is optional. -/
structure Hit where
  score : ℚ
  text : String
  name : Option String
deriving DecidableEq

/-- A recommendation entry as built by score_route. -/
structure Recommendation where
  name : String
  description : String
  type : String
deriving DecidableEq

/-- Failures a scoring pass can surface: the ZeroDivisionError raised by the
stride computation on an empty path, and a propagated query failure (the
source wraps no query in a try block, so a qdrant error or timeout escapes
score_route). -/
inductive ScoreErr where
  | divByZero : ScoreErr
  | queryFailed : ScoreErr
deriving DecidableEq

/-- The hybrid index as seen by score_route, specialised to the two concrete
queries the source issues at each sampled point: the danger query
(DANGER_CONCEPT_VECTOR, limit 2, geo radius 150 m, no category filter) and
the recommendation query (VIBE_CONCEPT_VECTOR, limit 1, geo radius 100 m,
category review).  A query either returns its ranked hit list or fails. -/
structure Env where
  dangerHits : Point → Except Unit (List Hit)
  recHits : Point → Except Unit (List Hit)

/-- The mutable loop state of score_route: total_danger_score, hit_count,
detected_tags, recommendations. -/
structure ScoreState where
  totalDanger : ℚ
  hitCount : ℕ
  tags : List String
  recs : List Recommendation
deriving DecidableEq

/-- The dict returned by score_route. -/
structure ScoreResult where
  score : ℚ
  tags : List String
  recommendations : List Recommendation
deriving DecidableEq

/-- Python text.split with a colon, first component: the prefix of the text
up to (and excluding) the first colon, the whole text when no colon occurs. -/
def tagOf (text : String) : String := ⟨text.data.takeWhile (fun c => c != ':')⟩

/-- One danger hit processed by the score_route loop body: when the
similarity is strictly above 0.60, the score joins total_danger_score,
hit_count grows, and the tag extracted from the text is appended when it is
short enough and not yet present. -/
def applyDangerHit (st : ScoreState) (h : Hit) : ScoreState :=
  if 0.60 < h.score then
    let st1 : ScoreState :=
      { st with totalDanger := st.totalDanger + h.score, hitCount := st.hitCount + 1 }
    let tag := tagOf h.text
    if tag.length < 30 ∧ tag ∉ st1.tags then { st1 with tags := st1.tags ++ [tag] } else st1
  else st

/-- The recommendation record score_route appends for a qualifying hit. -/
def mkRecommendation (h : Hit) : Recommendation :=
  { name := h.name.getD "Unknown Spot", description := h.text, type := "place" }

/-- One recommendation hit processed by the score_route loop body: when the
similarity is strictly above 0.75 and no collected recommendation already
carries the same name, the hit is appended. -/
def applyRecHit (st : ScoreState) (h : Hit) : ScoreState :=
  if 0.75 < h.score then
    if st.recs.any (fun r => r.name == h.name.getD "Unknown Spot") then st
    else { st with recs := st.recs ++ [mkRecommendation h] }
  else st

/-- Initial loop state of score_route. -/
def initState : ScoreState := ⟨0, 0, [], []⟩

/-- The per-sampled-point loop of score_route: the danger query runs first;
the recommendation query runs only while fewer than two recommendations
have been collected.  A failing query aborts the pass, exactly as the
source, which catches nothing here. -/
def scoreGo (env : Env) : List Point → ScoreState → Except ScoreErr ScoreState
  | [], st => .ok st
  | p :: ps, st =>
    match env.dangerHits p with
    | .error _ => .error .queryFailed
    | .ok dhits =>
      let st1 := List.foldl applyDangerHit st dhits
      if st1.recs.length < 2 then
        match env.recHits p with
        | .error _ => .error .queryFailed
        | .ok rhits => scoreGo env ps (List.foldl applyRecHit st1 rhits)
      else scoreGo env ps st1

/-- sample_count = min(10, len(path)). -/
def sample_count (path : List Point) : ℕ := min 10 path.length

/-- step = max(1, len(path) // sample_count); meaningful only when
sample_count is nonzero, which score_route checks via the guard below. -/
def sample_step (path : List Point) : ℕ := max 1 (path.length / sample_count path)

/-- sampled_points = [path[i] for i in range(0, len(path), step)][:sample_count];
range(0, n, step) enumerates exactly the multiples of step below n, in order. -/
def sampled_points (path : List Point) : List Point :=
  ((path.enum.filter (fun q => q.1 % sample_step path == 0)).map Prod.snd).take
    (sample_count path)

/-- score_route: samples the path, runs the two queries per sampled point,
and clamps 10.0 - total_danger_score * 4.0 into [1.0, 10.0].  On the empty
path the Python stride computation divides by sample_count = 0. -/
def score_route (env : Env) (path : List Point) : Except ScoreErr ScoreResult :=
  if sample_count path = 0 then .error .divByZero
  else
    match scoreGo env (sampled_points path) initState with
    | .error e => .error e
    | .ok st => .ok ⟨max 1 (min 10 (10 - st.totalDanger * 4)), st.tags.take 4, st.recs⟩

/-- The waypoint slightly north used for the first alternate route:
offset 0.003 added to the midpoint latitude. -/
def waypoint_north (ps pe : Point) : Point :=
  ⟨(ps.lat + pe.lat) / 2 + 0.003, (ps.lng + pe.lng) / 2⟩

/-- The waypoint slightly south used for the second alternate route. -/
def waypoint_south (ps pe : Point) : Point :=
  ⟨(ps.lat + pe.lat) / 2 - 0.003, (ps.lng + pe.lng) / 2⟩

/-- generate_real_paths, parameterised over the external OSRM routing
capability fetch_osrm_route, which already returns the empty list on any
failure.  The direct route is kept when nonempty; each alternate is kept
when both of its legs are nonempty, gluing the legs while dropping the
duplicated joint coordinate; when nothing survives, the straight two-point
line is the fallback. -/
def generate_real_paths (fetch : Point → Point → List Point) (ps pe : Point) :
    List (List Point) :=
  let direct := fetch ps pe
  let paths1 : List (List Point) := if direct ≠ [] then [direct] else []
  let a1 := fetch ps (waypoint_north ps pe)
  let b1 := fetch (waypoint_north ps pe) pe
  let paths2 := if a1 ≠ [] ∧ b1 ≠ [] then paths1 ++ [a1 ++ b1.tail] else paths1
  let a2 := fetch ps (waypoint_south ps pe)
  let b2 := fetch (waypoint_south ps pe) pe
  let paths3 := if a2 ≠ [] ∧ b2 ≠ [] then paths2 ++ [a2 ++ b2.tail] else paths2
  if paths3 = [] then [[ps, pe]] else paths3

/-- A stored index record: the payload shape written by the seeding path and
by report_vibe. -/
structure StoredRecord where
  id : String
  text : String
  type : String
  lat : ℚ
  lng : ℚ
  source : Option String
  timestamp : Option String
  severity : Option String
deriving DecidableEq

/-- The qdrant state the startup and report paths touch: the set of
collections and the records stored in the target collection. -/
structure IndexState where
  collections : List String
  records : List StoredRecord
deriving DecidableEq

def COLLECTION_NAME : String := "city_vibes_nyc"

/-- startup_event: when the target collection is absent, create it and run
the seed load (abstracted as the record list the load would upsert);
when it already exists, do nothing. -/
def startup_event (seed : List StoredRecord) (st : IndexState) : IndexState :=
  if COLLECTION_NAME ∈ st.collections then st
  else ⟨st.collections ++ [COLLECTION_NAME], st.records ++ seed⟩

/-- The pydantic VibeReport request model: plain typed fields, with no range
constraint on the coordinate and no nonemptiness constraint on the text. -/
structure VibeReport where
  lat : ℚ
  lng : ℚ
  description : String
  type : String
deriving DecidableEq

/-- The response dict of report_vibe. -/
structure ReportResponse where
  status : String
  message : String
deriving DecidableEq

/-- The record report_vibe upserts for a submission, given the fresh uuid
and the timestamp taken at the call. -/
def reportRecord (newId ts : String) (r : VibeReport) : StoredRecord :=
  ⟨newId, r.description, r.type, r.lat, r.lng, some "user_report", some ts, some "high"⟩

/-- report_vibe: embeds the description, upserts one record with the fixed
payload, and answers success.  The source validates nothing beyond the
field types. -/
def report_vibe (newId ts : String) (st : IndexState) (r : VibeReport) :
    IndexState × ReportResponse :=
  (⟨st.collections, st.records ++ [reportRecord newId ts r]⟩,
   ⟨"success", "Vibe memory updated. Search again to see impact."⟩)

/-- Spec-side: the similarity mass of one hit list, the sum of the
similarity scores of the hits strictly above 0.60. -/
def hitDangerSum (hs : List Hit) : ℚ :=
  (List.map Hit.score (hs.filter (fun h => decide (0.60 < h.score)))).sum

/-- Spec-side: the number of qualifying hits of one hit list. -/
def hitDangerCount (hs : List Hit) : ℕ :=
  (hs.filter (fun h => decide (0.60 < h.score))).length

/-- Spec-side: the tag candidates one hit list contributes, in hit order:
the tag of each hit strictly above 0.60, kept when its length is below 30. -/
def hitTags (hs : List Hit) : List String :=
  ((hs.filter (fun h => decide (0.60 < h.score))).map
    (fun h => tagOf h.text)).filter (fun t => decide (t.length < 30))

/-- Spec-side: the similarity mass at one sampled point, the sum of the
similarity scores of the danger-query hits strictly above 0.60. -/
def pointDanger (env : Env) (p : Point) : ℚ :=
  match env.dangerHits p with
  | .ok hs => hitDangerSum hs
  | .error _ => 0

/-- Spec-side: the total danger accumulated over all sampled points. -/
def specTotalDanger (env : Env) (path : List Point) : ℚ :=
  (List.map (pointDanger env) (sampled_points path)).sum

/-- Spec-side: the number of qualifying danger hits at one sampled point. -/
def pointDangerCount (env : Env) (p : Point) : ℕ :=
  match env.dangerHits p with
  | .ok hs => hitDangerCount hs
  | .error _ => 0

/-- Spec-side: the number of qualifying danger hits over all sampled points. -/
def specDangerHitCount (env : Env) (path : List Point) : ℕ :=
  (List.map (pointDangerCount env) (sampled_points path)).sum

/-- First-seen deduplicating append: keep the list when the tag is already
present, append it at the end otherwise. -/
def insertNewTag (tags : List String) (t : String) : List String :=
  if t ∈ tags then tags else tags ++ [t]

/-- Spec-side: the tag candidates one sampled point contributes, in hit
order: the tag of each danger hit strictly above 0.60, kept when its length
is below 30. -/
def pointTags (env : Env) (p : Point) : List String :=
  match env.dangerHits p with
  | .ok hs => hitTags hs
  | .error _ => []

/-- Spec-side: all tag candidates along the sampled points, in first-seen
processing order. -/
def specTagStream (env : Env) (path : List Point) : List String :=
  (sampled_points path).flatMap (pointTags env)

/-- Spec-side: the tags score_route should return — the tag candidate
stream deduplicated keeping first occurrences, capped to the first 4. -/
def specTags (env : Env) (path : List Point) : List String :=
  (List.foldl insertNewTag [] (specTagStream env path)).take 4

/-- Spec-side rendering of the sampler from the words of the claim: the
points at the index multiples of max(1, floor(len(path)/10)), in path
order, truncated to at most 10 points. -/
def specSampled (path : List Point) : List Point :=
  ((path.enum.filter (fun q => q.1 % (max 1 (path.length / 10)) == 0)).map
    Prod.snd).take 10

/-- A concrete sampled point for witnesses. -/
def ptA : Point := ⟨0, 0⟩

/-- A concrete healthy environment: one strong danger hit, no qualifying
recommendation hit. -/
def envA : Env :=
  ⟨fun _ => .ok [⟨0.8, "Crime Report: Robbery", none⟩], fun _ => .ok []⟩

/-- An environment whose danger query always fails. -/
def envFail : Env := ⟨fun _ => .error (), fun _ => .ok []⟩

/-- The scenario point of the spec: a single sampled point near Times
Square. -/
def pt9 : Point := ⟨40.7505, -73.9934⟩

/-- The scenario environment of the spec: two danger hits of similarity 0.8
and 0.65 at the single point, no qualifying recommendation hit. -/
def env9 : Env :=
  ⟨fun _ => .ok [⟨0.8, "Crime Report: Assault", none⟩, ⟨0.65, "Crime Report: Theft", none⟩],
   fun _ => .ok []⟩

/-- A routing capability that always fails. -/
def fetchEmpty : Point → Point → List Point := fun _ _ => []

/-- The result score_route produces on envA and the single-point path:
penalty 0.8 * 4 = 3.2, score 6.8, one tag, no recommendation. -/
def resA : ScoreResult := ⟨34 / 5, ["Crime Report"], []⟩

/-- A submission violating both validity conditions of the claim: latitude
200 and longitude 300 are far outside the valid ranges, and the text is
empty. -/
def badReport : VibeReport := ⟨200, 300, "", "crime"⟩

/-- An index whose target collection already exists and holds no record. -/
def idx0 : IndexState := ⟨[COLLECTION_NAME], []⟩

/-- A small concrete three-point path for sampler witnesses. -/
def pathW : List Point := [⟨0, 0⟩, ⟨1, 1⟩, ⟨2, 2⟩]

theorem applyDangerHit_totalDanger (st : ScoreState) (h : Hit) :
    (applyDangerHit st h).totalDanger =
      st.totalDanger + (if 0.60 < h.score then h.score else 0) := by
  unfold applyDangerHit
  dsimp only
  split_ifs <;> simp

theorem applyDangerHit_hitCount (st : ScoreState) (h : Hit) :
    (applyDangerHit st h).hitCount =
      st.hitCount + (if 0.60 < h.score then 1 else 0) := by
  unfold applyDangerHit
  dsimp only
  split_ifs <;> simp

theorem applyDangerHit_recs (st : ScoreState) (h : Hit) :
    (applyDangerHit st h).recs = st.recs := by
  unfold applyDangerHit
  dsimp only
  split_ifs <;> rfl

theorem applyDangerHit_tags (st : ScoreState) (h : Hit) :
    (applyDangerHit st h).tags =
      if 0.60 < h.score ∧ (tagOf h.text).length < 30
      then insertNewTag st.tags (tagOf h.text) else st.tags := by
  unfold applyDangerHit insertNewTag
  dsimp only
  split_ifs <;> simp_all

theorem applyRecHit_totalDanger (st : ScoreState) (h : Hit) :
    (applyRecHit st h).totalDanger = st.totalDanger := by
  unfold applyRecHit
  split_ifs <;> rfl

theorem applyRecHit_hitCount (st : ScoreState) (h : Hit) :
    (applyRecHit st h).hitCount = st.hitCount := by
  unfold applyRecHit
  split_ifs <;> rfl

theorem applyRecHit_tags (st : ScoreState) (h : Hit) :
    (applyRecHit st h).tags = st.tags := by
  unfold applyRecHit
  split_ifs <;> rfl

theorem hitDangerSum_cons (h : Hit) (t : List Hit) :
    hitDangerSum (h :: t) =
      (if 0.60 < h.score then h.score else 0) + hitDangerSum t := by
  unfold hitDangerSum
  by_cases hq : (0.60 : ℚ) < h.score <;> simp [List.filter_cons, hq]

theorem hitDangerCount_cons (h : Hit) (t : List Hit) :
    hitDangerCount (h :: t) =
      (if 0.60 < h.score then 1 else 0) + hitDangerCount t := by
  unfold hitDangerCount
  by_cases hq : (0.60 : ℚ) < h.score <;> simp [List.filter_cons, hq]
  omega

theorem hitTags_cons (h : Hit) (t : List Hit) :
    hitTags (h :: t) =
      (if 0.60 < h.score ∧ (tagOf h.text).length < 30
       then [tagOf h.text] else []) ++ hitTags t := by
  unfold hitTags
  by_cases hq : (0.60 : ℚ) < h.score
  · by_cases hl : (tagOf h.text).length < 30 <;>
      simp [List.filter_cons, hq, hl]
  · simp [List.filter_cons, hq]

theorem foldl_applyDangerHit_totalDanger (hs : List Hit) :
    ∀ st : ScoreState,
      (List.foldl applyDangerHit st hs).totalDanger = st.totalDanger + hitDangerSum hs := by
  induction hs with
  | nil => intro st; simp [hitDangerSum]
  | cons h t ih =>
    intro st
    rw [List.foldl_cons, ih, applyDangerHit_totalDanger, hitDangerSum_cons]
    ring

theorem foldl_applyDangerHit_hitCount (hs : List Hit) :
    ∀ st : ScoreState,
      (List.foldl applyDangerHit st hs).hitCount = st.hitCount + hitDangerCount hs := by
  induction hs with
  | nil => intro st; simp [hitDangerCount]
  | cons h t ih =>
    intro st
    rw [List.foldl_cons, ih, applyDangerHit_hitCount, hitDangerCount_cons]
    omega

theorem foldl_applyDangerHit_recs (hs : List Hit) :
    ∀ st : ScoreState, (List.foldl applyDangerHit st hs).recs = st.recs := by
  induction hs with
  | nil => intro st; rfl
  | cons h t ih =>
    intro st
    rw [List.foldl_cons, ih, applyDangerHit_recs]

theorem foldl_applyDangerHit_tags (hs : List Hit) :
    ∀ st : ScoreState,
      (List.foldl applyDangerHit st hs).tags =
        List.foldl insertNewTag st.tags (hitTags hs) := by
  induction hs with
  | nil => intro st; simp [hitTags]
  | cons h t ih =>
    intro st
    rw [List.foldl_cons, ih, applyDangerHit_tags, hitTags_cons, List.foldl_append]
    by_cases hc : 0.60 < h.score ∧ (tagOf h.text).length < 30 <;> simp [hc]

theorem foldl_applyRecHit_totalDanger (hs : List Hit) :
    ∀ st : ScoreState, (List.foldl applyRecHit st hs).totalDanger = st.totalDanger := by
  induction hs with
  | nil => intro st; rfl
  | cons h t ih =>
    intro st
    rw [List.foldl_cons, ih, applyRecHit_totalDanger]

theorem foldl_applyRecHit_hitCount (hs : List Hit) :
    ∀ st : ScoreState, (List.foldl applyRecHit st hs).hitCount = st.hitCount := by
  induction hs with
  | nil => intro st; rfl
  | cons h t ih =>
    intro st
    rw [List.foldl_cons, ih, applyRecHit_hitCount]

theorem foldl_applyRecHit_tags (hs : List Hit) :
    ∀ st : ScoreState, (List.foldl applyRecHit st hs).tags = st.tags := by
  induction hs with
  | nil => intro st; rfl
  | cons h t ih =>
    intro st
    rw [List.foldl_cons, ih, applyRecHit_tags]

theorem applyRecHit_recs_length (st : ScoreState) (h : Hit) :
    (applyRecHit st h).recs.length ≤ st.recs.length + 1 := by
  unfold applyRecHit
  split_ifs <;> simp

theorem applyRecHit_recs_pairwise (st : ScoreState) (h : Hit)
    (hp : List.Pairwise (fun a b => a.name ≠ b.name) st.recs) :
    List.Pairwise (fun a b => a.name ≠ b.name) (applyRecHit st h).recs := by
  unfold applyRecHit
  split_ifs with h1 h2
  · exact hp
  · rw [List.pairwise_append]
    refine ⟨hp, by simp, ?_⟩
    intro a ha b hb
    simp only [List.mem_singleton] at hb
    subst hb
    simp only [List.any_eq_true, beq_iff_eq, not_exists, not_and] at h2
    simpa [mkRecommendation] using h2 a ha
  · exact hp

theorem applyRecHit_recs_mem (st : ScoreState) (h : Hit) (rc : Recommendation)
    (hm : rc ∈ (applyRecHit st h).recs) :
    rc ∈ st.recs ∨ (0.75 < h.score ∧ rc = mkRecommendation h) := by
  unfold applyRecHit at hm
  split_ifs at hm with h1 h2
  · exact Or.inl hm
  · rcases List.mem_append.mp hm with hl | hr
    · exact Or.inl hl
    · exact Or.inr ⟨h1, List.mem_singleton.mp hr⟩
  · exact Or.inl hm

theorem foldl_applyRecHit_recs_length (hs : List Hit) :
    ∀ st : ScoreState,
      (List.foldl applyRecHit st hs).recs.length ≤ st.recs.length + hs.length := by
  induction hs with
  | nil => intro st; simp
  | cons h t ih =>
    intro st
    rw [List.foldl_cons]
    calc (List.foldl applyRecHit (applyRecHit st h) t).recs.length
        ≤ (applyRecHit st h).recs.length + t.length := ih _
      _ ≤ st.recs.length + 1 + t.length :=
          Nat.add_le_add_right (applyRecHit_recs_length st h) _
      _ = st.recs.length + (h :: t).length := by simp; omega

theorem foldl_applyRecHit_recs_pairwise (hs : List Hit) :
    ∀ st : ScoreState, List.Pairwise (fun a b => a.name ≠ b.name) st.recs →
      List.Pairwise (fun a b => a.name ≠ b.name) (List.foldl applyRecHit st hs).recs := by
  induction hs with
  | nil => intro st hp; exact hp
  | cons h t ih =>
    intro st hp
    rw [List.foldl_cons]
    exact ih _ (applyRecHit_recs_pairwise st h hp)

theorem foldl_applyRecHit_recs_mem (hs : List Hit) :
    ∀ (st : ScoreState) (rc : Recommendation), rc ∈ (List.foldl applyRecHit st hs).recs →
      rc ∈ st.recs ∨ ∃ h ∈ hs, 0.75 < h.score ∧ rc = mkRecommendation h := by
  induction hs with
  | nil => intro st rc hm; exact Or.inl hm
  | cons h t ih =>
    intro st rc hm
    rw [List.foldl_cons] at hm
    rcases ih _ _ hm with h1 | ⟨h2, hh2, hs2, he2⟩
    · rcases applyRecHit_recs_mem st h rc h1 with h3 | ⟨h4, h5⟩
      · exact Or.inl h3
      · exact Or.inr ⟨h, List.mem_cons_self h t, h4, h5⟩
    · exact Or.inr ⟨h2, List.mem_cons_of_mem h hh2, hs2, he2⟩

theorem mem_foldl_insertNewTag (ts : List String) :
    ∀ (acc : List String) (x : String), x ∈ List.foldl insertNewTag acc ts →
      x ∈ acc ∨ x ∈ ts := by
  induction ts with
  | nil => intro acc x hm; exact Or.inl hm
  | cons t ts ih =>
    intro acc x hm
    rw [List.foldl_cons] at hm
    rcases ih _ _ hm with h1 | h2
    · unfold insertNewTag at h1
      split_ifs at h1 with hmem
      · exact Or.inl h1
      · rcases List.mem_append.mp h1 with ha | hb
        · exact Or.inl ha
        · exact Or.inr (by simp [List.mem_singleton.mp hb])
    · exact Or.inr (List.mem_cons_of_mem t h2)

theorem nodup_foldl_insertNewTag (ts : List String) :
    ∀ acc : List String, acc.Nodup → (List.foldl insertNewTag acc ts).Nodup := by
  induction ts with
  | nil => intro acc h; exact h
  | cons t ts ih =>
    intro acc h
    rw [List.foldl_cons]
    refine ih _ ?_
    unfold insertNewTag
    split_ifs with hmem
    · exact h
    · rw [List.nodup_append]
      exact ⟨h, List.nodup_singleton t, by simpa using fun hx => hmem hx⟩

theorem scoreGo_ne_divByZero (env : Env) (pts : List Point) :
    ∀ st : ScoreState, scoreGo env pts st ≠ .error .divByZero := by
  induction pts with
  | nil => intro st; simp [scoreGo]
  | cons p ps ih =>
    intro st
    rw [scoreGo]
    cases env.dangerHits p with
    | error e => simp
    | ok dhits =>
      dsimp only
      split_ifs
      · cases env.recHits p with
        | error e => simp
        | ok rhits => exact ih _
      · exact ih _

theorem scoreGo_ok_core (env : Env) (pts : List Point) :
    ∀ st st2 : ScoreState, scoreGo env pts st = .ok st2 →
      st2.totalDanger = st.totalDanger + (pts.map (pointDanger env)).sum ∧
      st2.hitCount = st.hitCount + (pts.map (pointDangerCount env)).sum ∧
      st2.tags = List.foldl insertNewTag st.tags (pts.flatMap (pointTags env)) := by
  induction pts with
  | nil =>
    intro st st2 h
    rw [scoreGo] at h
    cases h
    simp
  | cons p ps ih =>
    intro st st2 h
    rw [scoreGo] at h
    cases hdh : env.dangerHits p with
    | error e => rw [hdh] at h; cases h
    | ok dhits =>
      rw [hdh] at h
      dsimp only at h
      have hpd : pointDanger env p = hitDangerSum dhits := by
        unfold pointDanger; rw [hdh]
      have hpc : pointDangerCount env p = hitDangerCount dhits := by
        unfold pointDangerCount; rw [hdh]
      have hpt : pointTags env p = hitTags dhits := by
        unfold pointTags; rw [hdh]
      split_ifs at h with hlt
      · cases hrh : env.recHits p with
        | error e => rw [hrh] at h; cases h
        | ok rhits =>
          rw [hrh] at h
          obtain ⟨h1, h2, h3⟩ := ih _ _ h
          rw [h1, h2, h3, foldl_applyRecHit_totalDanger, foldl_applyRecHit_hitCount,
            foldl_applyRecHit_tags, foldl_applyDangerHit_totalDanger,
            foldl_applyDangerHit_hitCount, foldl_applyDangerHit_tags]
          refine ⟨by rw [List.map_cons, List.sum_cons, hpd]; ring,
            by rw [List.map_cons, List.sum_cons, hpc]; omega, ?_⟩
          rw [List.flatMap_cons, List.foldl_append, hpt]
      · obtain ⟨h1, h2, h3⟩ := ih _ _ h
        rw [h1, h2, h3, foldl_applyDangerHit_totalDanger,
          foldl_applyDangerHit_hitCount, foldl_applyDangerHit_tags]
        refine ⟨by rw [List.map_cons, List.sum_cons, hpd]; ring,
          by rw [List.map_cons, List.sum_cons, hpc]; omega, ?_⟩
        rw [List.flatMap_cons, List.foldl_append, hpt]

theorem scoreGo_ok_recs_length (env : Env) (pts : List Point)
    (hlim : ∀ p hs, env.recHits p = .ok hs → hs.length ≤ 1) :
    ∀ st st2 : ScoreState, st.recs.length ≤ 2 → scoreGo env pts st = .ok st2 →
      st2.recs.length ≤ 2 := by
  induction pts with
  | nil =>
    intro st st2 hle h
    rw [scoreGo] at h
    cases h
    exact hle
  | cons p ps ih =>
    intro st st2 hle h
    rw [scoreGo] at h
    cases hdh : env.dangerHits p with
    | error e => rw [hdh] at h; cases h
    | ok dhits =>
      rw [hdh] at h
      dsimp only at h
      have hrd : (List.foldl applyDangerHit st dhits).recs = st.recs :=
        foldl_applyDangerHit_recs dhits st
      split_ifs at h with hlt
      · cases hrh : env.recHits p with
        | error e => rw [hrh] at h; cases h
        | ok rhits =>
          rw [hrh] at h
          refine ih _ _ ?_ h
          calc (List.foldl applyRecHit (List.foldl applyDangerHit st dhits) rhits).recs.length
              ≤ (List.foldl applyDangerHit st dhits).recs.length + rhits.length :=
                foldl_applyRecHit_recs_length rhits _
            _ ≤ 1 + 1 := by
                have := hlim p rhits hrh
                rw [hrd] at hlt ⊢
                omega
            _ ≤ 2 := by omega
      · refine ih _ _ ?_ h
        rw [hrd]
        exact hle

theorem scoreGo_ok_recs_pairwise (env : Env) (pts : List Point) :
    ∀ st st2 : ScoreState, List.Pairwise (fun a b => a.name ≠ b.name) st.recs →
      scoreGo env pts st = .ok st2 →
      List.Pairwise (fun a b => a.name ≠ b.name) st2.recs := by
  induction pts with
  | nil =>
    intro st st2 hp h
    rw [scoreGo] at h
    cases h
    exact hp
  | cons p ps ih =>
    intro st st2 hp h
    rw [scoreGo] at h
    cases hdh : env.dangerHits p with
    | error e => rw [hdh] at h; cases h
    | ok dhits =>
      rw [hdh] at h
      dsimp only at h
      have hrd : (List.foldl applyDangerHit st dhits).recs = st.recs :=
        foldl_applyDangerHit_recs dhits st
      split_ifs at h with hlt
      · cases hrh : env.recHits p with
        | error e => rw [hrh] at h; cases h
        | ok rhits =>
          rw [hrh] at h
          refine ih _ _ ?_ h
          refine foldl_applyRecHit_recs_pairwise rhits _ ?_
          rw [hrd]
          exact hp
      · refine ih _ _ ?_ h
        rw [hrd]
        exact hp

theorem scoreGo_ok_recs_mem (env : Env) (pts : List Point) :
    ∀ (st st2 : ScoreState), scoreGo env pts st = .ok st2 →
      ∀ rc ∈ st2.recs, rc ∈ st.recs ∨ ∃ p ∈ pts, ∃ hs, env.recHits p = .ok hs ∧
        ∃ h ∈ hs, 0.75 < h.score ∧ rc = mkRecommendation h := by
  induction pts with
  | nil =>
    intro st st2 h rc hm
    rw [scoreGo] at h
    cases h
    exact Or.inl hm
  | cons p ps ih =>
    intro st st2 h rc hm
    rw [scoreGo] at h
    cases hdh : env.dangerHits p with
    | error e => rw [hdh] at h; cases h
    | ok dhits =>
      rw [hdh] at h
      dsimp only at h
      have hrd : (List.foldl applyDangerHit st dhits).recs = st.recs :=
        foldl_applyDangerHit_recs dhits st
      split_ifs at h with hlt
      · cases hrh : env.recHits p with
        | error e => rw [hrh] at h; cases h
        | ok rhits =>
          rw [hrh] at h
          rcases ih _ _ h rc hm with h1 | ⟨q, hq, hs, hhs, hw⟩
          · rcases foldl_applyRecHit_recs_mem rhits _ rc h1 with h2 | ⟨w, hw1, hw2, hw3⟩
            · rw [hrd] at h2
              exact Or.inl h2
            · exact Or.inr ⟨p, List.mem_cons_self p ps, rhits, hrh, w, hw1, hw2, hw3⟩
          · exact Or.inr ⟨q, List.mem_cons_of_mem p hq, hs, hhs, hw⟩
      · rcases ih _ _ h rc hm with h1 | ⟨q, hq, hs, hhs, hw⟩
        · rw [hrd] at h1
          exact Or.inl h1
        · exact Or.inr ⟨q, List.mem_cons_of_mem p hq, hs, hhs, hw⟩

theorem score_route_ok_elim (env : Env) (path : List Point) (r : ScoreResult)
    (hok : score_route env path = .ok r) :
    ∃ st : ScoreState, scoreGo env (sampled_points path) initState = .ok st ∧
      r = ⟨max 1 (min 10 (10 - st.totalDanger * 4)), st.tags.take 4, st.recs⟩ := by
  unfold score_route at hok
  split_ifs at hok
  cases hgo : scoreGo env (sampled_points path) initState with
  | error e => rw [hgo] at hok; cases hok
  | ok st =>
    rw [hgo] at hok
    cases hok
    exact ⟨st, rfl, rfl⟩

theorem filter_enumFrom_map_snd_sublist {α : Type} (q : ℕ × α → Bool) :
    ∀ (l : List α) (i : ℕ),
      (((List.enumFrom i l).filter q).map Prod.snd).Sublist l := by
  intro l
  induction l with
  | nil => intro i; simp
  | cons a t ih =>
    intro i
    rw [List.enumFrom_cons, List.filter_cons]
    by_cases hq : q (i, a) = true
    · rw [if_pos hq, List.map_cons]
      exact List.Sublist.cons₂ a (ih (i + 1))
    · rw [if_neg hq]
      exact List.Sublist.cons a (ih (i + 1))

theorem enumFrom_map_snd {α : Type} :
    ∀ (l : List α) (i : ℕ), (List.enumFrom i l).map Prod.snd = l := by
  intro l
  induction l with
  | nil => intro i; rfl
  | cons a t ih =>
    intro i
    rw [List.enumFrom_cons, List.map_cons, ih]

theorem sampled_points_sublist (path : List Point) :
    (sampled_points path).Sublist path := by
  refine List.Sublist.trans (List.take_sublist _ _) ?_
  rw [List.enum]
  exact filter_enumFrom_map_snd_sublist _ path 0

theorem sampled_points_length_le (path : List Point) :
    (sampled_points path).length ≤ 10 := by
  unfold sampled_points
  calc (((path.enum.filter (fun q => q.1 % sample_step path == 0)).map
        Prod.snd).take (sample_count path)).length
      ≤ sample_count path := by rw [List.length_take]; omega
    _ ≤ 10 := by unfold sample_count; omega

theorem sampled_points_head (path : List Point) :
    (sampled_points path).head? = path.head? := by
  cases path with
  | nil => rfl
  | cons a t =>
    unfold sampled_points
    have hsc : sample_count (a :: t) = (min 10 t.length.succ - 1) + 1 := by
      unfold sample_count
      simp only [List.length_cons]
      omega
    rw [hsc, List.enum_cons, List.filter_cons]
    have hq : ((0 : ℕ) % sample_step (a :: t) == 0) = true := by
      simp [Nat.zero_mod]
    rw [if_pos hq, List.map_cons, List.take_succ_cons, List.head?_cons, List.head?_cons]

theorem sampled_points_eq_spec (path : List Point) (hne : path ≠ []) :
    sampled_points path = specSampled path := by
  rcases Nat.lt_or_ge path.length 10 with hlt | hge
  · have hn : 0 < path.length := List.length_pos.mpr hne
    have hsc : sample_count path = path.length := by
      unfold sample_count; omega
    have hstep : sample_step path = 1 := by
      unfold sample_step
      rw [hsc, Nat.div_self hn]
      exact max_self 1
    have hs2 : max 1 (path.length / 10) = 1 := by
      rw [Nat.div_eq_of_lt hlt]
      exact max_eq_left (Nat.zero_le 1)
    have hall : ∀ s : ℕ, s = 1 →
        path.enum.filter (fun q => q.1 % s == 0) = path.enum := by
      intro s hs
      subst hs
      refine List.filter_eq_self.mpr ?_
      intro q _
      simp [Nat.mod_one]
    unfold sampled_points specSampled
    rw [hstep, hs2, hall 1 rfl, List.enum, enumFrom_map_snd, hsc,
      List.take_length, List.take_of_length_le (Nat.le_of_lt hlt)]
  · have hsc : sample_count path = 10 := by
      unfold sample_count; omega
    unfold sampled_points specSampled sample_step
    rw [hsc]

theorem pointTags_eq (env : Env) (p : Point) (hs : List Hit)
    (h : env.dangerHits p = .ok hs) : pointTags env p = hitTags hs := by
  unfold pointTags
  rw [h]

theorem pointTags_err (env : Env) (p : Point) (e : Unit)
    (h : env.dangerHits p = .error e) : pointTags env p = [] := by
  unfold pointTags
  rw [h]

theorem pointDanger_eq (env : Env) (p : Point) (hs : List Hit)
    (h : env.dangerHits p = .ok hs) : pointDanger env p = hitDangerSum hs := by
  unfold pointDanger
  rw [h]

theorem pointDangerCount_eq (env : Env) (p : Point) (hs : List Hit)
    (h : env.dangerHits p = .ok hs) : pointDangerCount env p = hitDangerCount hs := by
  unfold pointDangerCount
  rw [h]

theorem specTotalDanger_eq_zero_of_no_hit (env : Env) (path : List Point)
    (h : specDangerHitCount env path = 0) : specTotalDanger env path = 0 := by
  unfold specDangerHitCount at h
  unfold specTotalDanger
  refine List.sum_eq_zero ?_
  intro x hx
  rw [List.mem_map] at hx
  obtain ⟨p, hp, hxe⟩ := hx
  have hc : pointDangerCount env p = 0 :=
    (List.sum_eq_zero_iff.mp h) _ (List.mem_map_of_mem _ hp)
  subst hxe
  cases hdh : env.dangerHits p with
  | error e => unfold pointDanger; rw [hdh]
  | ok hs =>
    rw [pointDangerCount_eq env p hs hdh] at hc
    unfold hitDangerCount at hc
    rw [List.length_eq_zero] at hc
    rw [pointDanger_eq env p hs hdh]
    unfold hitDangerSum
    rw [hc]
    simp

/-- Claim C1: for every path scored by score_route, the returned score
equals clamp(10.0 - 4.0 * totalDanger, 1.0, 10.0), where totalDanger is
the sum of the similarity scores of all danger-query hits with similarity
strictly greater than 0.60 over all sampled points; the score is always
within [1.0, 10.0], and with zero such hits the score is exactly 10.0. -/
theorem score_route_clamped_formula (env : Env) (path : List Point) (r : ScoreResult)
    (hok : score_route env path = .ok r) :
    r.score = max 1 (min 10 (10 - 4 * specTotalDanger env path)) ∧
    1 ≤ r.score ∧ r.score ≤ 10 ∧
    (specDangerHitCount env path = 0 → r.score = 10) := by
  obtain ⟨st, hgo, hr⟩ := score_route_ok_elim env path r hok
  obtain ⟨h1, _h2, _h3⟩ := scoreGo_ok_core env (sampled_points path) initState st hgo
  have htd : st.totalDanger = specTotalDanger env path := by
    rw [h1]
    unfold specTotalDanger initState
    simp
  subst hr
  have hform : (ScoreResult.mk (max 1 (min 10 (10 - st.totalDanger * 4)))
      (st.tags.take 4) st.recs).score =
      max 1 (min 10 (10 - 4 * specTotalDanger env path)) := by
    show max 1 (min 10 (10 - st.totalDanger * 4)) = _
    rw [htd, mul_comm]
  refine ⟨hform, ?_, ?_, ?_⟩
  · exact le_max_left 1 _
  · exact max_le (by norm_num) (min_le_left 10 _)
  · intro hzero
    rw [hform, specTotalDanger_eq_zero_of_no_hit env path hzero]
    norm_num

/-- Witness for C1 at the concrete environment envA and single-point path. -/
theorem score_route_clamped_formula_witness :
    score_route envA [ptA] = .ok resA ∧
    resA.score = max 1 (min 10 (10 - 4 * specTotalDanger envA [ptA])) ∧
    1 ≤ resA.score ∧ resA.score ≤ 10 := by
  have hok : score_route envA [ptA] = .ok resA := by
    norm_num +decide [score_route, sampled_points, sample_count, sample_step, scoreGo,
      envA, ptA, applyDangerHit, applyRecHit, initState, tagOf, resA]
  have h := score_route_clamped_formula envA [ptA] resA hok
  exact ⟨hok, h.1, h.2.1, h.2.2.1⟩

/-- Claim C9: a path sampled at exactly one point whose danger query
returns hits of similarity 0.8 and 0.65 (both above 0.60) and whose
recommendation query returns no qualifying hit gives totalDanger 1.45,
penalty 5.8 and final score 4.2 (exact rational arithmetic). -/
theorem scenario_two_danger_hits_score :
    sampled_points [pt9] = [pt9] ∧
    specTotalDanger env9 [pt9] = 1.45 ∧
    specTotalDanger env9 [pt9] * 4 = 5.8 ∧
    (score_route env9 [pt9]).map ScoreResult.score = .ok 4.2 := by
  refine ⟨rfl, ?_, ?_, ?_⟩
  · norm_num [specTotalDanger, sampled_points, sample_count, sample_step, pointDanger,
      env9, pt9, hitDangerSum]
  · norm_num [specTotalDanger, sampled_points, sample_count, sample_step, pointDanger,
      env9, pt9, hitDangerSum]
  · norm_num +decide [score_route, sampled_points, sample_count, sample_step, scoreGo,
      env9, pt9, applyDangerHit, applyRecHit, initState, tagOf, Except.map]

/-- Claim C10: score_route needs a nonempty path; on the empty path the
stride computation divides by sample_count = 0 (a ZeroDivisionError), and
on every nonempty path sample_count and the stride are at least 1 and the
division error never occurs. -/
theorem score_route_needs_nonempty_path (env : Env) (path : List Point) :
    (path = [] → score_route env path = .error .divByZero) ∧
    (path ≠ [] →
      1 ≤ sample_count path ∧ 1 ≤ sample_step path ∧
      score_route env path ≠ .error .divByZero) := by
  constructor
  · intro h
    subst h
    rfl
  · intro hne
    have hn : 0 < path.length := List.length_pos.mpr hne
    have h1 : 1 ≤ sample_count path := by
      unfold sample_count
      omega
    refine ⟨h1, le_max_left 1 _, ?_⟩
    intro hcontra
    unfold score_route at hcontra
    rw [if_neg (by omega)] at hcontra
    cases hgo : scoreGo env (sampled_points path) initState with
    | error e =>
      rw [hgo] at hcontra
      cases hcontra
      exact scoreGo_ne_divByZero env (sampled_points path) initState hgo
    | ok st =>
      rw [hgo] at hcontra
      cases hcontra

/-- Witness for C10: empty path errors, a one-point path does not. -/
theorem score_route_needs_nonempty_path_witness :
    score_route envA [] = .error .divByZero ∧
    score_route envA [ptA] ≠ .error .divByZero := by
  refine ⟨(score_route_needs_nonempty_path envA []).1 rfl, ?_⟩
  exact ((score_route_needs_nonempty_path envA [ptA]).2 (by simp)).2.2

/-- Counterexample to claim C2: with a failing danger query, score_route
does not return a (score, tags, recommendations) result — the failure
propagates out as an error. -/
theorem score_route_query_failure_not_contained :
    score_route envFail [ptA] = .error .queryFailed ∧
    (score_route envFail [ptA]).isOk = false := by
  constructor <;> rfl

/-- Claim C2 as amended: a failure of an individual HybridIndex query
aborts the scoring pass — when the danger query at the first sampled point
fails, score_route propagates the failure instead of returning a result. -/
theorem score_route_query_failure_propagates (env : Env) (p : Point) (path : List Point)
    (hhead : path.head? = some p) (hfail : env.dangerHits p = .error ()) :
    score_route env path = .error .queryFailed := by
  cases path with
  | nil => cases hhead
  | cons a t =>
    have hap : a = p := by simpa using hhead
    rw [← hap] at hfail
    have hh : (sampled_points (a :: t)).head? = some a := by
      rw [sampled_points_head]
      rfl
    cases hsp : sampled_points (a :: t) with
    | nil => rw [hsp] at hh; cases hh
    | cons b bs =>
      rw [hsp] at hh
      have hba : b = a := by simpa using hh
      unfold score_route
      rw [if_neg (by simp [sample_count])]
      rw [hsp, scoreGo, hba, hfail]

/-- Witness for the amended C2 at the concrete failing environment. -/
theorem score_route_query_failure_propagates_witness :
    score_route envFail [ptA] = .error .queryFailed :=
  score_route_query_failure_propagates envFail ptA [ptA] rfl rfl

/-- Counterexample to claim C3: a submission with latitude 200 (outside
[-90, 90]), longitude 300 (outside [-180, 180]) and empty text is not
rejected — report_vibe answers success and inserts a record. -/
theorem report_vibe_invalid_accepted :
    (90 : ℚ) < badReport.lat ∧ (180 : ℚ) < badReport.lng ∧ badReport.description = "" ∧
    (report_vibe "id-0" "ts-0" idx0 badReport).1.records.length = 1 ∧
    (report_vibe "id-0" "ts-0" idx0 badReport).2.status = "success" := by
  refine ⟨by norm_num [badReport], by norm_num [badReport], rfl, rfl, rfl⟩

/-- Claim C3 as amended: report_vibe performs no coordinate-range or
empty-text validation — every typed submission, out-of-range coordinates
and empty text included, is accepted with a success response and exactly
one record appended to the index. -/
theorem report_vibe_no_validation (newId ts : String) (st : IndexState) (r : VibeReport)
    (_hinvalid : r.lat < -90 ∨ 90 < r.lat ∨ r.lng < -180 ∨ 180 < r.lng ∨
      r.description = "") :
    (report_vibe newId ts st r).1.records = st.records ++ [reportRecord newId ts r] ∧
    (report_vibe newId ts st r).2.status = "success" :=
  ⟨rfl, rfl⟩

/-- Witness for the amended C3 at the concrete invalid submission. -/
theorem report_vibe_no_validation_witness :
    (report_vibe "id-0" "ts-0" idx0 badReport).1.records =
      idx0.records ++ [reportRecord "id-0" "ts-0" badReport] ∧
    (report_vibe "id-0" "ts-0" idx0 badReport).2.status = "success" :=
  report_vibe_no_validation "id-0" "ts-0" idx0 badReport
    (Or.inr (Or.inl (by norm_num [badReport])))

/-- Claim C4: for every nonempty path the sampler selects exactly the
points at the index multiples of s = max(1, floor(len(path)/10)), in path
order, truncated to at most 10 points; it never exceeds 10 points,
preserves the original order, and always includes the first point. -/
theorem route_sampler_stride (path : List Point) (hne : path ≠ []) :
    sampled_points path = specSampled path ∧
    (sampled_points path).length ≤ 10 ∧
    (sampled_points path).Sublist path ∧
    (sampled_points path).head? = path.head? :=
  ⟨sampled_points_eq_spec path hne, sampled_points_length_le path,
   sampled_points_sublist path, sampled_points_head path⟩

/-- Witness for C4 on a concrete three-point path. -/
theorem route_sampler_stride_witness :
    sampled_points pathW = specSampled pathW ∧
    (sampled_points pathW).length ≤ 10 ∧
    (sampled_points pathW).head? = pathW.head? := by
  have h := route_sampler_stride pathW (by simp [pathW])
  exact ⟨h.1, h.2.1, h.2.2.2⟩

/-- Claim C5: path generation always yields between 1 and 3 paths, and when
the routing capability returns empty geometry for the primary attempt and
for both legs of each waypoint alternate, the result is exactly the
two-point straight line [start, end]. -/
theorem generate_real_paths_count_and_fallback
    (fetch : Point → Point → List Point) (ps pe : Point) :
    (1 ≤ (generate_real_paths fetch ps pe).length ∧
      (generate_real_paths fetch ps pe).length ≤ 3) ∧
    (fetch ps pe = [] → fetch ps (waypoint_north ps pe) = [] →
      fetch (waypoint_north ps pe) pe = [] → fetch ps (waypoint_south ps pe) = [] →
      fetch (waypoint_south ps pe) pe = [] →
      generate_real_paths fetch ps pe = [[ps, pe]]) := by
  constructor
  · unfold generate_real_paths
    dsimp only
    split_ifs <;> simp_all
  · intro h1 h2 h3 h4 h5
    simp [generate_real_paths, h1, h2, h3, h4, h5]

/-- Witness for C5 with the always-failing routing capability. -/
theorem generate_real_paths_count_and_fallback_witness :
    generate_real_paths fetchEmpty ptA pt9 = [[ptA, pt9]] :=
  (generate_real_paths_count_and_fallback fetchEmpty ptA pt9).2 rfl rfl rfl rfl rfl

/-- Claim C6: under the index contract that the recommendation query
returns at most its limit of 1 hit, the recommendations list of every
successful scoring pass has at most 2 entries, no two entries share a name
(exact, case-sensitive equality), and every entry stems from a hit of
similarity strictly above 0.75 at a sampled point, named by its name
payload with default Unknown Spot. -/
theorem recommendations_capped_deduped (env : Env) (path : List Point) (r : ScoreResult)
    (hlim : ∀ p hs, env.recHits p = .ok hs → hs.length ≤ 1)
    (hok : score_route env path = .ok r) :
    r.recommendations.length ≤ 2 ∧
    List.Pairwise (fun a b => a.name ≠ b.name) r.recommendations ∧
    (∀ rc ∈ r.recommendations, ∃ p ∈ sampled_points path, ∃ hs,
      env.recHits p = .ok hs ∧ ∃ h ∈ hs, 0.75 < h.score ∧ rc = mkRecommendation h) := by
  obtain ⟨st, hgo, hr⟩ := score_route_ok_elim env path r hok
  subst hr
  refine ⟨?_, ?_, ?_⟩
  · exact scoreGo_ok_recs_length env _ hlim initState st (by simp [initState]) hgo
  · exact scoreGo_ok_recs_pairwise env _ initState st (by simp [initState]) hgo
  · intro rc hm
    rcases scoreGo_ok_recs_mem env _ initState st hgo rc hm with h1 | h2
    · simp [initState] at h1
    · exact h2

/-- Witness for C6 at the concrete environment envA. -/
theorem recommendations_capped_deduped_witness :
    resA.recommendations.length ≤ 2 ∧
    List.Pairwise (fun a b => a.name ≠ b.name) resA.recommendations := by
  have hok : score_route envA [ptA] = .ok resA := by
    norm_num +decide [score_route, sampled_points, sample_count, sample_step, scoreGo,
      envA, ptA, applyDangerHit, applyRecHit, initState, tagOf, resA]
  have hlim : ∀ p hs, envA.recHits p = .ok hs → hs.length ≤ 1 := by
    intro p hs h
    cases h
    simp
  have h := recommendations_capped_deduped envA [ptA] resA hlim hok
  exact ⟨h.1, h.2.1⟩

/-- Claim C7: the tags list of every successful scoring pass equals the
first-seen deduplication of the tag candidates along the sampled points
capped at 4 entries, so it has length at most 4, no duplicate, first-seen
order, and every element is the prefix of a qualifying danger hit text up
to the first colon with length below 30. -/
theorem tags_capped_deduped (env : Env) (path : List Point) (r : ScoreResult)
    (hok : score_route env path = .ok r) :
    r.tags = specTags env path ∧ r.tags.length ≤ 4 ∧ r.tags.Nodup ∧
    (∀ t ∈ r.tags, ∃ p ∈ sampled_points path, ∃ hs, env.dangerHits p = .ok hs ∧
      ∃ h ∈ hs, 0.60 < h.score ∧ t = tagOf h.text ∧ t.length < 30) := by
  obtain ⟨st, hgo, hr⟩ := score_route_ok_elim env path r hok
  obtain ⟨_h1, _h2, h3⟩ := scoreGo_ok_core env (sampled_points path) initState st hgo
  subst hr
  have htags : st.tags.take 4 = specTags env path := by
    rw [h3]
    unfold specTags specTagStream initState
    rfl
  refine ⟨htags, ?_, ?_, ?_⟩
  · show (st.tags.take 4).length ≤ 4
    rw [List.length_take]
    omega
  · show (st.tags.take 4).Nodup
    have hnd : st.tags.Nodup := by
      rw [h3]
      exact nodup_foldl_insertNewTag _ _ (by simp [initState])
    exact hnd.sublist (List.take_sublist 4 st.tags)
  · intro t ht
    have ht2 : t ∈ st.tags := List.mem_of_mem_take ht
    rw [h3] at ht2
    rcases mem_foldl_insertNewTag _ _ _ ht2 with h0 | hstream
    · simp [initState] at h0
    · rw [List.mem_flatMap] at hstream
      obtain ⟨p, hp, hpt⟩ := hstream
      cases hdh : env.dangerHits p with
      | error e =>
        rw [pointTags_err env p e hdh] at hpt
        cases hpt
      | ok hs =>
        rw [pointTags_eq env p hs hdh] at hpt
        unfold hitTags at hpt
        rw [List.mem_filter] at hpt
        obtain ⟨hmm, hlen⟩ := hpt
        rw [List.mem_map] at hmm
        obtain ⟨h, hh, hteq⟩ := hmm
        rw [List.mem_filter] at hh
        obtain ⟨hhs, hsc⟩ := hh
        refine ⟨p, hp, hs, hdh, h, hhs, by simpa using hsc, hteq.symm, by simpa using hlen⟩

/-- Witness for C7 at the concrete environment envA. -/
theorem tags_capped_deduped_witness :
    resA.tags = specTags envA [ptA] ∧ resA.tags.length ≤ 4 ∧ resA.tags.Nodup := by
  have hok : score_route envA [ptA] = .ok resA := by
    norm_num +decide [score_route, sampled_points, sample_count, sample_step, scoreGo,
      envA, ptA, applyDangerHit, applyRecHit, initState, tagOf, resA]
  have h := tags_capped_deduped envA [ptA] resA hok
  exact ⟨h.1, h.2.1, h.2.2.1⟩

/-- Claim C8: the startup bootstrap is idempotent with respect to seeding —
after one run the target collection exists, and a second run changes
nothing, so the stored records (hence their multiset) are unchanged. -/
theorem startup_event_idempotent (seed : List StoredRecord) (st : IndexState) :
    COLLECTION_NAME ∈ (startup_event seed st).collections ∧
    startup_event seed (startup_event seed st) = startup_event seed st ∧
    (startup_event seed (startup_event seed st)).records =
      (startup_event seed st).records := by
  unfold startup_event
  by_cases h : COLLECTION_NAME ∈ st.collections <;> simp [h]

end VibeWalk
